import Mathlib

/-!
# Formal model of the EV branch-selection engine

A shallow embedding of `src/components/functions/filtering/branches_with_el_cars.ts`
(the `evRouting` utilities): great-circle distance, the route-proximity filter
`findNearbyBranchesFromPolyline`, and the best-branch selection
`getBestBranchWithAvailableEV`.

Modelling conventions, fixed once for the whole file:

* JavaScript `number` is modelled by the real numbers `ℝ`; the two non-finite
  values that the scoring division can produce (`Infinity` and `NaN`) are made
  explicit through the `JsNum` type used for the `distanceRatio` field.
* `polyline.decode` is an external codec (the `@mapbox/polyline` package); the
  proximity filter is therefore modelled over the already decoded point list.
* `readCsv` is an I/O boundary; `getBestBranchWithAvailableEV` receives the
  three row lists (branches, cars, trips) as parameters.
* CSV cells are modelled as their parse results: a `parseFloat` cell becomes
  `Option ℝ` (`none` stands for `NaN`), a `parseStringArray` cell becomes the
  resulting `List String`, and a timestamp cell becomes a `TimeCell` carrying
  the local calendar date and time-of-day that `new Date` resolves it to.
* A JavaScript `Map` is modelled as an association list with `mapSet`
  (overwrite-in-place, append when fresh — the `Map.set` semantics) and
  `mapGet`.
-/

namespace EvRouting

open Real

/-- `type Point = \x7b lat: number; lng: number \x7d`. -/
structure Point where
  lat : ℝ
  lng : ℝ

instance : Inhabited Point := ⟨⟨0, 0⟩⟩

/-- `Math.atan2 y x` on ideal reals (signed zeroes collapse to `0`). -/
noncomputable def atan2 (y x : ℝ) : ℝ :=
  if 0 < x then Real.arctan (y / x)
  else if x < 0 ∧ 0 ≤ y then Real.arctan (y / x) + π
  else if x < 0 ∧ y < 0 then Real.arctan (y / x) - π
  else if x = 0 ∧ 0 < y then π / 2
  else if x = 0 ∧ y < 0 then -(π / 2)
  else 0

/-- The haversine kernel `a` of `getDistance` (source lines 80-81):
`sin²(Δφ/2) + cos φ1 · cos φ2 · sin²(Δλ/2)`. -/
noncomputable def haverA (p1 p2 : Point) : ℝ :=
  Real.sin ((p2.lat - p1.lat) * π / 180 / 2) ^ 2 +
    Real.cos (p1.lat * π / 180) * Real.cos (p2.lat * π / 180) *
      Real.sin ((p2.lng - p1.lng) * π / 180 / 2) ^ 2

/-- `getDistance`: haversine distance in metres, Earth radius 6 371 000 m
(source lines 73-84): `c = 2·atan2(√a, √(1-a))`, result `R·c`. -/
noncomputable def getDistance (p1 p2 : Point) : ℝ :=
  6371000 * (2 * atan2 (Real.sqrt (haverA p1 p2)) (Real.sqrt (1 - haverA p1 p2)))

lemma atan2_zero_one : atan2 0 1 = 0 := by
  unfold atan2
  rw [if_pos (by norm_num)]
  simp

lemma atan2_one_zero : atan2 1 0 = π / 2 := by
  unfold atan2
  rw [if_neg (by norm_num), if_neg (by norm_num), if_neg (by norm_num),
    if_pos (by norm_num)]

lemma haverA_symm (p q : Point) : haverA p q = haverA q p := by
  unfold haverA
  rw [show (q.lat - p.lat) * π / 180 / 2 = -((p.lat - q.lat) * π / 180 / 2) by ring,
    show (q.lng - p.lng) * π / 180 / 2 = -((p.lng - q.lng) * π / 180 / 2) by ring,
    Real.sin_neg, Real.sin_neg]
  ring

/-- The haversine formula is symmetric in its two arguments. -/
lemma getDistance_symm (p q : Point) : getDistance p q = getDistance q p := by
  unfold getDistance
  rw [haverA_symm]

lemma haverA_self (p : Point) : haverA p p = 0 := by
  unfold haverA
  rw [show (p.lat - p.lat) * π / 180 / 2 = 0 by ring,
    show (p.lng - p.lng) * π / 180 / 2 = 0 by ring, Real.sin_zero]
  ring

/-- The distance from a point to itself is `0`. -/
lemma getDistance_self (p : Point) : getDistance p p = 0 := by
  unfold getDistance
  rw [haverA_self, Real.sqrt_zero, sub_zero, Real.sqrt_one, atan2_zero_one]
  ring

lemma haverA_origin_antipode : haverA ⟨0, 0⟩ ⟨0, 180⟩ = 1 := by
  unfold haverA
  norm_num

/-- Concrete sample value: the distance from `(0°,0°)` to `(0°,180°)` is
`R·π` metres. -/
lemma getDistance_origin_antipode : getDistance ⟨0, 0⟩ ⟨0, 180⟩ = 6371000 * π := by
  unfold getDistance
  rw [haverA_origin_antipode, Real.sqrt_one, sub_self, Real.sqrt_zero, atan2_one_zero]
  ring

lemma getDistance_origin_antipode_pos : 0 < getDistance ⟨0, 0⟩ ⟨0, 180⟩ := by
  rw [getDistance_origin_antipode]
  positivity

/-! ## JavaScript numbers reached by the scoring division

All quantities in the pipeline are finite reals except the `distanceRatio`
produced by `c.distanceToRoute_meters / distToMin`: IEEE division by zero
yields `Infinity`/`-Infinity` for a non-zero numerator and `NaN` for `0/0`.
`JsNum` makes those outcomes explicit; `jsLt` is the JavaScript `<` on them
(every comparison involving `NaN` is false). -/

inductive JsNum where
  | nan : JsNum
  | inf : JsNum
  | neginf : JsNum
  | real (x : ℝ) : JsNum

/-- JavaScript division `a / b` of two finite reals. -/
noncomputable def jsDiv (a b : ℝ) : JsNum :=
  if b = 0 then
    if a = 0 then JsNum.nan else if 0 < a then JsNum.inf else JsNum.neginf
  else JsNum.real (a / b)

/-- JavaScript `<` restricted to the values of `JsNum`. -/
def jsLt : JsNum → JsNum → Prop
  | JsNum.real x, JsNum.real y => x < y
  | JsNum.real _, JsNum.inf => True
  | JsNum.neginf, JsNum.real _ => True
  | JsNum.neginf, JsNum.inf => True
  | _, _ => False

noncomputable instance : DecidableRel jsLt := Classical.decRel _

/-! ## Data rows (CSV cells already parsed, see the header comment) -/

/-- `BranchRow`: `Lat`/`Lng` carry the `parseFloat` of the cell (`none` = `NaN`),
`cars` carries the `parseStringArray` of the `cars` cell. -/
structure BranchRow where
  Name : String
  Lat : Option ℝ
  Lng : Option ℝ
  cars : List String

/-- `NearbyBranchResult` (source lines 97-101). -/
structure NearbyBranchResult where
  Name : String
  distanceToRoute_meters : ℝ
  minDistanceLocation : Point

instance : Inhabited NearbyBranchResult := ⟨⟨"", 0, ⟨0, 0⟩⟩⟩

/-- `CarRow`: `range_km` carries the `parseFloat` of the cell (`none` = `NaN`),
`trips_ids` carries the `parseStringArray` of that cell. -/
structure CarRow where
  id : String
  type : String
  range_km : Option ℝ
  trips_ids : List String

/-- A local calendar date, the `YYYY-MM-DD` part that `toLocalDate` keeps. -/
structure LDate where
  year : Int
  month : Nat
  day : Nat
deriving DecidableEq

/-- A timestamp cell of a trip row, as `new Date`/`Date.parse` resolves it:
`missing` = field absent or empty after `trim` (a falsy string),
`unparseable` = non-empty text with `Date.parse` equal to `NaN`,
`parsed` = the local calendar date plus the local time of day in minutes. -/
inductive TimeCell where
  | missing : TimeCell
  | unparseable : TimeCell
  | parsed (date : LDate) (minuteOfDay : Nat) : TimeCell
deriving DecidableEq

/-- `TripRow` (source lines 183-187). -/
structure TripRow where
  car_id : String
  departure_time : TimeCell
  arrival_time : TimeCell

/-- `toLocalDate` (source lines 28-34): format the local components of a
parsed timestamp as `YYYY-MM-DD`, i.e. keep the calendar date and discard
the time of day. -/
def toLocalDate (date : LDate) (_minuteOfDay : Nat) : LDate := date

/-! ## JavaScript `Map` as an association list -/

/-- `Map.set`: overwrite in place when the key exists, append otherwise. -/
def mapSet {V : Type} (m : List (String × V)) (k : String) (v : V) :
    List (String × V) :=
  if m.any (fun kv => kv.1 = k) then
    m.map (fun kv => if kv.1 = k then (k, v) else kv)
  else m ++ [(k, v)]

/-- `Map.get`. -/
def mapGet {V : Type} (m : List (String × V)) (k : String) : Option V :=
  (m.find? (fun kv => kv.1 = k)).map (fun kv => kv.2)

/-! ## JavaScript string primitives

`String.prototype.trim` and `String.prototype.startsWith`, modelled over the
character list (so concrete instances evaluate inside the kernel). -/

/-- JavaScript `s.trim()`: strip leading and trailing whitespace. -/
def jsTrim (s : String) : String :=
  ⟨((s.data.dropWhile Char.isWhitespace).reverse.dropWhile
      Char.isWhitespace).reverse⟩

/-- JavaScript `s.startsWith(p)`. -/
def jsStartsWith (s p : String) : Bool :=
  s.data.take p.data.length == p.data

/-! ## Route-proximity filter (`findNearbyBranchesFromPolyline`) -/

/-- Body of the 3b scan loop (source lines 148-156). The accumulator is
`none` for the initial `(Infinity, null)` state; any real distance is
below `Infinity`, so the first point always replaces `none`. -/
noncomputable def minScanStep (coords : Point) (acc : Option (ℝ × Point))
    (pt : Point) : Option (ℝ × Point) :=
  match acc with
  | none => some (getDistance pt coords, pt)
  | some (minDist, minLoc) =>
    if getDistance pt coords < minDist then some (getDistance pt coords, pt)
    else some (minDist, minLoc)

/-- The 3b scan over all decoded points: minimum distance to `coords`
together with the first path point attaining it. -/
noncomputable def minScan (coords : Point) (pts : List Point) :
    Option (ℝ × Point) :=
  pts.foldl (minScanStep coords) none

/-- Evaluation of one branch row (the body of the `.map` at source
lines 131-168): `null` when the coordinates do not parse, when the branch
lies beyond 60 % of the start-to-end span, or when the minimum distance to
the path exceeds the threshold. -/
noncomputable def evalBranch (DISTANCE_THRESHOLD : ℝ) (startPoint : Point)
    (distStartToEnd : ℝ) (decoded : List Point) (branch : BranchRow) :
    Option NearbyBranchResult :=
  match branch.Lat, branch.Lng with
  | some lat, some lng =>
    let coords : Point := ⟨lat, lng⟩
    if getDistance startPoint coords > distStartToEnd * 0.6 then none
    else
      match minScan coords decoded with
      | none => none
      | some (minDist, minLoc) =>
        if minDist > DISTANCE_THRESHOLD then none
        else some ⟨branch.Name, minDist, minLoc⟩
  | _, _ => none

/-- `findNearbyBranchesFromPolyline` (source lines 110-170), modelled over
the decoded point list (`polyline.decode` is an external codec). -/
noncomputable def findNearbyBranchesFromPolyline (DISTANCE_THRESHOLD : ℝ)
    (decoded : List Point) (branches : List BranchRow) :
    List NearbyBranchResult :=
  match decoded with
  | [] => []
  | [_] => []
  | startPoint :: rest =>
    branches.filterMap
      (evalBranch DISTANCE_THRESHOLD startPoint
        (getDistance startPoint ((startPoint :: rest).getLast (by simp)))
        (startPoint :: rest))

/-! ## Best-branch selection (`getBestBranchWithAvailableEV`) -/

/-- `new Map(nearbyBranches.map(b => [b.Name, b]))` (source line 231). -/
def nearbyMap (nearby : List NearbyBranchResult) :
    List (String × NearbyBranchResult) :=
  nearby.foldl (fun m b => mapSet m b.Name b) []

/-- The intermediate record of step 3 (source lines 243-255). -/
structure BranchWithEVs where
  branch : String
  lat : ℝ
  lng : ℝ
  distanceToRoute_meters : ℝ
  minDistanceLocation : Point
  electric_car_ids : List String

/-- Step 3 (source lines 236-255): keep the branches that are in the nearby
map and own at least one "E"-prefixed car id; re-parse their coordinates and
attach the nearby info and the list of their electric car ids. The `getD`
mirrors the `!` non-null assertion (the filter guarantees `isSome`); the
`getD 0` on the coordinates stands for the `NaN` a second row of the same
name could produce, and is unreachable when branch names are unique. -/
noncomputable def branchesWithEVs (nm : List (String × NearbyBranchResult))
    (branches : List BranchRow) : List BranchWithEVs :=
  (branches.filter (fun branch =>
      (mapGet nm branch.Name).isSome &&
        branch.cars.any (fun id => jsStartsWith (jsTrim id) "E"))).map
    (fun branch =>
      let nearbyInfo := (mapGet nm branch.Name).getD default
      { branch := branch.Name
        lat := branch.Lat.getD 0
        lng := branch.Lng.getD 0
        distanceToRoute_meters := nearbyInfo.distanceToRoute_meters
        minDistanceLocation := nearbyInfo.minDistanceLocation
        electric_car_ids :=
          branch.cars.filter (fun id => jsStartsWith (jsTrim id) "E") })

/-- The value stored in `highRangeEvMap`: the car row spread together with
its parsed trip-id list (source lines 263-266). -/
structure EvInfo where
  id : String
  type : String
  range_km : Option ℝ
  trips_ids : List String
  trips : List String

/-- Step 4 (source lines 260-268): index, by trimmed id, the cars of type
`"electric"` whose parsed range strictly exceeds `RANGE_THRESHOLD`
(a `NaN` range — `none` — never passes the `>`). -/
noncomputable def rangePasses (RANGE_THRESHOLD : ℝ) : Option ℝ → Bool
  | some r => decide (RANGE_THRESHOLD < r)
  | none => false

/-- Body of the step 4 loop: add the car to the index when it is electric
and its range passes the threshold. -/
noncomputable def evStep (RANGE_THRESHOLD : ℝ) (m : List (String × EvInfo))
    (car : CarRow) : List (String × EvInfo) :=
  if car.type = "electric" && rangePasses RANGE_THRESHOLD car.range_km then
    mapSet m (jsTrim car.id)
      ⟨car.id, car.type, car.range_km, car.trips_ids, car.trips_ids⟩
  else m

noncomputable def highRangeEvMap (RANGE_THRESHOLD : ℝ) (cars : List CarRow) :
    List (String × EvInfo) :=
  cars.foldl (evStep RANGE_THRESHOLD) []

/-- The candidate record of step 5 (source lines 273-281). -/
structure Candidate where
  branch : String
  lat : ℝ
  lng : ℝ
  distanceToRoute_meters : ℝ
  minDistanceLocation : Point
  ev_id : String
  trip_ids : List String

/-- The candidate pushed for one (branch, ev) pair (source lines 287-295). -/
def mkCandidate (b : BranchWithEVs) (ev : String) (car : EvInfo) : Candidate :=
  { branch := b.branch
    lat := b.lat
    lng := b.lng
    distanceToRoute_meters := b.distanceToRoute_meters
    minDistanceLocation := b.minDistanceLocation
    ev_id := jsTrim ev
    trip_ids := car.trips }

/-- Step 5 (source lines 283-298): one candidate per (branch, electric car id)
pair whose trimmed id is in the high-range EV index. -/
def candidates (evMap : List (String × EvInfo)) (bwes : List BranchWithEVs) :
    List Candidate :=
  bwes.flatMap (fun b =>
    b.electric_car_ids.filterMap (fun ev =>
      match mapGet evMap (jsTrim ev) with
      | some car => some (mkCandidate b ev car)
      | none => none))

/-- The `timeStr` selection of step 6 (source line 306):
`trip.departure_time?.trim() || trip.arrival_time?.trim()` — the arrival
cell is used exactly when the departure cell is falsy (absent or empty). -/
def chosenTime (trip : TripRow) : TimeCell :=
  match trip.departure_time with
  | TimeCell.missing => trip.arrival_time
  | t => t

/-- Body of the step 6 loop (source lines 304-311) — which date, if any, a
trip row contributes: the trimmed `car_id` must be non-empty, the timestamp
is the departure cell when that is truthy, else the arrival cell, and an
unparseable or missing timestamp contributes nothing. -/
def tripDate (trip : TripRow) : Option LDate :=
  if jsTrim trip.car_id = "" then none
  else
    match chosenTime trip with
    | TimeCell.parsed d tod => some (toLocalDate d tod)
    | _ => none

/-- One step of building `bookedMap`: push the trip's date onto its car's
list (creating the list when absent). -/
def bookedStep (m : List (String × List LDate)) (trip : TripRow) :
    List (String × List LDate) :=
  match tripDate trip with
  | none => m
  | some d =>
    mapSet m (jsTrim trip.car_id)
      ((mapGet m (jsTrim trip.car_id)).getD [] ++ [d])

/-- Step 6 (source lines 303-311): map each trimmed car id to the list of
dates on which it has a trip. -/
def bookedMap (trips : List TripRow) : List (String × List LDate) :=
  trips.foldl bookedStep []

/-- Step 6, the availability filter (source lines 313-316): drop every
candidate whose EV id is booked on the desired date. -/
def freeCandidates (desiredDate : LDate) (bm : List (String × List LDate))
    (cands : List Candidate) : List Candidate :=
  cands.filter
    (fun c => !(decide (desiredDate ∈ (mapGet bm c.ev_id).getD [])))

/-- The result record of step 7 (source lines 189-196; the runtime object,
which carries the candidate's fields plus the two scoring fields — the
`Name` of the extended interface is never actually set by the cast at
line 331). -/
structure BestBranchResult where
  branch : String
  lat : ℝ
  lng : ℝ
  distanceToRoute_meters : ℝ
  minDistanceLocation : Point
  ev_id : String
  trip_ids : List String
  distanceToMinLocation_meters : ℝ
  distanceRatio : JsNum

/-- Scoring of one candidate (source lines 322-332): recompute the distance
from the branch coordinate to its `minDistanceLocation` and divide. -/
noncomputable def scoreOne (c : Candidate) : BestBranchResult :=
  { branch := c.branch
    lat := c.lat
    lng := c.lng
    distanceToRoute_meters := c.distanceToRoute_meters
    minDistanceLocation := c.minDistanceLocation
    ev_id := c.ev_id
    trip_ids := c.trip_ids
    distanceToMinLocation_meters :=
      getDistance ⟨c.lat, c.lng⟩ c.minDistanceLocation
    distanceRatio :=
      jsDiv c.distanceToRoute_meters
        (getDistance ⟨c.lat, c.lng⟩ c.minDistanceLocation) }

/-- Step 7 scoring of the whole free-candidate list (source lines 322-332). -/
noncomputable def scoreCandidates (cands : List Candidate) :
    List BestBranchResult :=
  cands.map scoreOne

/-- One step of the final `reduce` (source lines 334-336). -/
noncomputable def pickStep (best cur : BestBranchResult) : BestBranchResult :=
  if jsLt cur.distanceRatio best.distanceRatio then cur else best

/-- The final selection (source lines 317 and 334-336): `null` on the empty
list, otherwise the `reduce` of the scored list with `pickStep`. -/
noncomputable def selectBest (scored : List BestBranchResult) :
    Option BestBranchResult :=
  match scored with
  | [] => none
  | c :: rest => some (rest.foldl pickStep c)

/-- Steps 2-5 composed: the candidate list of
`getBestBranchWithAvailableEV` before the availability filter. -/
noncomputable def pipelineCandidates (DISTANCE_THRESHOLD RANGE_THRESHOLD : ℝ)
    (decoded : List Point) (branches : List BranchRow) (cars : List CarRow) :
    List Candidate :=
  candidates (highRangeEvMap RANGE_THRESHOLD cars)
    (branchesWithEVs
      (nearbyMap (findNearbyBranchesFromPolyline DISTANCE_THRESHOLD decoded branches))
      branches)

/-- Step 6 composed: the free candidates of `getBestBranchWithAvailableEV`.
`TIME` is the parsed target timestamp (local date, minute of day). -/
noncomputable def pipelineFree (DISTANCE_THRESHOLD RANGE_THRESHOLD : ℝ)
    (TIME : LDate × Nat) (decoded : List Point) (branches : List BranchRow)
    (cars : List CarRow) (trips : List TripRow) : List Candidate :=
  freeCandidates (toLocalDate TIME.1 TIME.2) (bookedMap trips)
    (pipelineCandidates DISTANCE_THRESHOLD RANGE_THRESHOLD decoded branches cars)

/-- `getBestBranchWithAvailableEV` (source lines 202-337), modelled over the
already-loaded row lists (`readCsv` is the I/O boundary) and the decoded
polyline. -/
noncomputable def getBestBranchWithAvailableEV (DISTANCE_THRESHOLD RANGE_THRESHOLD : ℝ)
    (TIME : LDate × Nat) (decoded : List Point) (branches : List BranchRow)
    (cars : List CarRow) (trips : List TripRow) : Option BestBranchResult :=
  selectBest
    (scoreCandidates
      (pipelineFree DISTANCE_THRESHOLD RANGE_THRESHOLD TIME decoded branches cars trips))

/-! ## Concrete sample data

Fixture rows used to instantiate theorems at concrete inputs. The sample
path `[⟨0,0⟩, ⟨0,0⟩]` has two points (so it is not degenerate) and both at
the origin, so every distance along it is `0` and evaluations stay
symbolic-friendly. -/

/-- Sample decoded path: two points, both at the origin. -/
def decoded0 : List Point := [⟨0, 0⟩, ⟨0, 0⟩]

/-- Sample branch at the origin owning the single electric car `"E1"`. -/
def brB : BranchRow := ⟨"B", some 0, some 0, ["E1"]⟩

/-- Sample branch at `(0°,180°)`, far beyond the sample path. -/
def brFar : BranchRow := ⟨"F", some 0, some 180, ["E1"]⟩

/-- Sample branch at the origin owning two electric cars. -/
def brTwo : BranchRow := ⟨"B2", some 0, some 0, ["E1", "E3"]⟩

/-- Sample electric car with range 500 km. -/
def carE1 : CarRow := ⟨"E1", "electric", some 500, []⟩

/-- Sample electric car whose range is exactly the 100 km threshold. -/
def carE2 : CarRow := ⟨"E2", "electric", some 100, []⟩

/-- Sample electric car with range 300 km. -/
def carE3 : CarRow := ⟨"E3", "electric", some 300, []⟩

/-- Sample gasoline car with a large range. -/
def carG : CarRow := ⟨"G1", "gasoline", some 500, []⟩

/-- Sample target date. -/
def date0 : LDate := ⟨2024, 6, 1⟩

/-- Sample booking of `"E1"`: departure on the target date at 08:00. -/
def tripBooked : TripRow := ⟨"E1", TimeCell.parsed date0 480, TimeCell.missing⟩

/-- Scored fixture with ratio `2`. -/
def sRatio2 : BestBranchResult := ⟨"A", 0, 0, 0, ⟨0, 0⟩, "E1", [], 0, JsNum.real 2⟩

/-- Scored fixture with ratio `1`. -/
def sRatio1 : BestBranchResult := ⟨"B", 0, 0, 0, ⟨0, 0⟩, "E2", [], 0, JsNum.real 1⟩

/-- Candidate fixture that coincides with its nearest path point: branch at
the origin, `minDistanceLocation` the origin, recorded minimum distance `0`. -/
def candZero : Candidate := ⟨"Z", 0, 0, 0, ⟨0, 0⟩, "E1", []⟩

/-- Candidate fixture whose branch sits at distance `R·π` from its nearest
path point `(0°,180°)` (score `1`, a finite value). -/
noncomputable def candFinite : Candidate :=
  ⟨"F", 0, 0, 6371000 * π, ⟨0, 180⟩, "E2", []⟩

/-- Sample nearby result for the branch `"B"`. -/
def rB : NearbyBranchResult := ⟨"B", 0, ⟨0, 0⟩⟩

/-- Sample branch-with-EVs record for `"B"`. -/
def bwB : BranchWithEVs := ⟨"B", 0, 0, 0, ⟨0, 0⟩, ["E1"]⟩

/-- Sample branch-with-EVs record owning two electric cars. -/
def bwTwo : BranchWithEVs := ⟨"B2", 0, 0, 0, ⟨0, 0⟩, ["E1", "E3"]⟩

/-- Sample eligible-EV info record for `"E1"`. -/
def infoE1 : EvInfo := ⟨"E1", "electric", some 500, [], []⟩

/-- Sample eligible-EV info record for `"E3"`. -/
def infoE3 : EvInfo := ⟨"E3", "electric", some 300, [], []⟩

/-- Sample eligible-EV index holding `"E1"` and `"E3"`. -/
def evMapTwo : List (String × EvInfo) := [("E1", infoE1), ("E3", infoE3)]

/-- Order embedding of the non-`NaN` `JsNum` values into the extended reals
(`nan` is mapped to a junk value and excluded by hypothesis wherever the
embedding is used). -/
noncomputable def toE : JsNum → EReal
  | JsNum.nan => 0
  | JsNum.inf => ⊤
  | JsNum.neginf => ⊥
  | JsNum.real x => (x : EReal)

/-! ## Lemmas about the `Map` model -/

section MapLemmas

variable {V : Type}

lemma find?_map_set_self (l : List (String × V)) (k : String) (v : V)
    (h : l.any (fun kv => kv.1 = k) = true) :
    (l.map (fun kv => if kv.1 = k then (k, v) else kv)).find?
      (fun kv => kv.1 = k) = some (k, v) := by
  induction l with
  | nil => simp at h
  | cons hd tl ih =>
    by_cases hh : hd.1 = k
    · simp [List.find?_cons, hh]
    · have htl : tl.any (fun kv => kv.1 = k) = true := by
        simpa [List.any_cons, hh] using h
      simpa [List.find?_cons, hh] using ih htl

lemma find?_map_set_ne (l : List (String × V)) (k k' : String) (v : V)
    (hne : k' ≠ k) :
    (l.map (fun kv => if kv.1 = k then (k, v) else kv)).find?
      (fun kv => kv.1 = k') = l.find? (fun kv => kv.1 = k') := by
  induction l with
  | nil => simp
  | cons hd tl ih =>
    rw [List.map_cons]
    by_cases hh : hd.1 = k
    · have h2 : ¬hd.1 = k' := by rw [hh]; exact fun h => hne h.symm
      rw [if_pos hh,
        List.find?_cons_of_neg _ (by simp; exact fun h => hne h.symm),
        List.find?_cons_of_neg _ (by simpa using h2), ih]
    · rw [if_neg hh]
      by_cases h3 : hd.1 = k'
      · rw [List.find?_cons_of_pos _ (by simpa using h3),
          List.find?_cons_of_pos _ (by simpa using h3)]
      · rw [List.find?_cons_of_neg _ (by simpa using h3),
          List.find?_cons_of_neg _ (by simpa using h3), ih]

lemma mapGet_mapSet (m : List (String × V)) (k k' : String) (v : V) :
    mapGet (mapSet m k v) k' = if k' = k then some v else mapGet m k' := by
  unfold mapSet mapGet
  by_cases hany : m.any (fun kv => kv.1 = k) = true
  · rw [if_pos hany]
    by_cases hk : k' = k
    · subst hk
      rw [find?_map_set_self m k' v hany]
      simp
    · rw [find?_map_set_ne m k k' v hk, if_neg hk]
  · rw [if_neg hany]
    have hnone : m.find? (fun kv => kv.1 = k) = none := by
      rw [List.find?_eq_none]
      intro x hx
      by_contra hc
      exact hany (List.any_eq_true.mpr ⟨x, hx, by simpa using hc⟩)
    by_cases hk : k' = k
    · subst hk
      rw [List.find?_append, hnone]
      simp [List.find?_cons]
    · have h2 : ([(k, v)]).find? (fun kv => kv.1 = k') = none := by
        rw [List.find?_cons_of_neg _ (by simp; exact fun h => hk h.symm)]
        rfl
      rw [List.find?_append, h2, if_neg hk]
      cases m.find? (fun kv => kv.1 = k') <;> rfl

/-- Every value retrieved from a map is one of its entries, keyed as asked. -/
lemma mapGet_mem (m : List (String × V)) (k : String) (v : V)
    (h : mapGet m k = some v) : (k, v) ∈ m := by
  unfold mapGet at h
  cases hf : m.find? (fun kv => kv.1 = k) with
  | none => rw [hf] at h; simp at h
  | some kv =>
    rw [hf] at h
    have hmem := List.mem_of_find?_eq_some hf
    have hkey : kv.1 = k := by
      have := List.find?_some hf
      simpa using this
    have hv : kv.2 = v := by simpa using h
    have : kv = (k, v) := by
      cases kv
      simp only at hkey hv
      rw [hkey, hv]
    rwa [this] at hmem

/-- A set key stays retrievable after any further `mapSet`. -/
lemma mapGet_isSome_mapSet (m : List (String × V)) (k k' : String) (v : V)
    (h : (mapGet m k').isSome = true) :
    (mapGet (mapSet m k v) k').isSome = true := by
  rw [mapGet_mapSet]
  by_cases hk : k' = k <;> simp [hk, h]

/-- Entries after a `mapSet` are old entries or the pair just set. -/
lemma mem_mapSet (m : List (String × V)) (k : String) (v : V) :
    ∀ kv ∈ mapSet m k v, kv ∈ m ∨ kv = (k, v) := by
  intro kv hkv
  unfold mapSet at hkv
  by_cases h : m.any (fun x => x.1 = k) = true
  · rw [if_pos h] at hkv
    obtain ⟨x, hx, hfx⟩ := List.mem_map.mp hkv
    by_cases hxk : x.1 = k
    · right
      rw [if_pos hxk] at hfx
      exact hfx.symm
    · left
      rw [if_neg hxk] at hfx
      rwa [hfx] at hx
  · rw [if_neg h] at hkv
    rcases List.mem_append.mp hkv with h1 | h2
    · exact Or.inl h1
    · exact Or.inr (by simpa using h2)

end MapLemmas

/-! ## Structural lemmas about the proximity filter -/

/-- Invariant of the 3b scan: the recorded location always attains the
recorded minimum distance. -/
lemma minScan_go (coords : Point) (pts : List Point) :
    ∀ (acc : Option (ℝ × Point)),
      (∀ q ∈ acc, getDistance q.2 coords = q.1) →
      ∀ q ∈ pts.foldl (minScanStep coords) acc, getDistance q.2 coords = q.1 := by
  induction pts with
  | nil => intro acc hacc; exact hacc
  | cons pt pts ih =>
    intro acc hacc
    rw [List.foldl_cons]
    apply ih
    intro q hq
    cases acc with
    | none =>
      rw [show minScanStep coords none pt
          = some (getDistance pt coords, pt) from rfl] at hq
      simp only [Option.mem_def, Option.some_inj] at hq
      rw [← hq]
    | some ml =>
      obtain ⟨m, loc⟩ := ml
      rw [show minScanStep coords (some (m, loc)) pt
          = if getDistance pt coords < m then some (getDistance pt coords, pt)
            else some (m, loc) from rfl] at hq
      by_cases hd : getDistance pt coords < m
      · rw [if_pos hd] at hq
        simp only [Option.mem_def, Option.some_inj] at hq
        rw [← hq]
      · rw [if_neg hd] at hq
        simp only [Option.mem_def, Option.some_inj] at hq
        rw [← hq]
        exact hacc (m, loc) rfl

/-- The point recorded by `minScan` attains the recorded minimum. -/
lemma minScan_eq (coords : Point) (pts : List Point) (m : ℝ) (loc : Point)
    (h : minScan coords pts = some (m, loc)) :
    getDistance loc coords = m := by
  have := minScan_go coords pts none (by intro q hq; cases hq) (m, loc)
  unfold minScan at h
  exact this (by rw [h]; rfl)

/-- What a produced `NearbyBranchResult` says about its branch row:
coordinates parsed, name copied, and the recorded minimum distance is the
distance from the branch to the recorded location. -/
lemma evalBranch_some (T : ℝ) (s : Point) (dse : ℝ) (decoded : List Point)
    (br : BranchRow) (r : NearbyBranchResult)
    (h : evalBranch T s dse decoded br = some r) :
    ∃ lat lng, br.Lat = some lat ∧ br.Lng = some lng ∧ r.Name = br.Name ∧
      getDistance (⟨lat, lng⟩ : Point) r.minDistanceLocation
        = r.distanceToRoute_meters := by
  unfold evalBranch at h
  cases hLat : br.Lat with
  | none => rw [hLat] at h; cases br.Lng <;> simp at h
  | some lat =>
    cases hLng : br.Lng with
    | none => rw [hLat, hLng] at h; simp at h
    | some lng =>
      rw [hLat, hLng] at h
      simp only at h
      by_cases hfar : getDistance s ⟨lat, lng⟩ > dse * 0.6
      · rw [if_pos hfar] at h; cases h
      · rw [if_neg hfar] at h
        cases hscan : minScan ⟨lat, lng⟩ decoded with
        | none => rw [hscan] at h; cases h
        | some ml =>
          obtain ⟨minDist, minLoc⟩ := ml
          rw [hscan] at h
          simp only at h
          by_cases hthr : minDist > T
          · rw [if_pos hthr] at h; cases h
          · rw [if_neg hthr] at h
            simp only [Option.some_inj] at h
            refine ⟨lat, lng, rfl, rfl, ?_, ?_⟩
            · rw [← h]
            · rw [← h]
              simp only
              rw [getDistance_symm]
              exact minScan_eq _ _ _ _ hscan

/-- `findNearbyBranchesFromPolyline` on a list with at least two points is
the `filterMap` of `evalBranch`. -/
lemma findNearby_eq_filterMap (T : ℝ) (p0 q : Point) (qs : List Point)
    (branches : List BranchRow) :
    findNearbyBranchesFromPolyline T (p0 :: q :: qs) branches =
      branches.filterMap
        (evalBranch T p0
          (getDistance p0 ((p0 :: q :: qs).getLast (by simp)))
          (p0 :: q :: qs)) := rfl

/-- Every nearby result comes from a branch row whose coordinates parsed,
whose name it copies, and whose distance to the recorded location is the
recorded minimum. -/
lemma findNearby_mem (T : ℝ) (decoded : List Point) (branches : List BranchRow)
    (r : NearbyBranchResult)
    (hr : r ∈ findNearbyBranchesFromPolyline T decoded branches) :
    ∃ br ∈ branches, ∃ lat lng, br.Lat = some lat ∧ br.Lng = some lng ∧
      r.Name = br.Name ∧
      getDistance (⟨lat, lng⟩ : Point) r.minDistanceLocation
        = r.distanceToRoute_meters := by
  cases decoded with
  | nil => simp [findNearbyBranchesFromPolyline] at hr
  | cons p0 tl =>
    cases tl with
    | nil => simp [findNearbyBranchesFromPolyline] at hr
    | cons q qs =>
      rw [findNearby_eq_filterMap] at hr
      obtain ⟨br, hbr, heval⟩ := List.mem_filterMap.mp hr
      obtain ⟨lat, lng, h1, h2, h3, h4⟩ := evalBranch_some _ _ _ _ _ _ heval
      exact ⟨br, hbr, lat, lng, h1, h2, h3, h4⟩

/-- Entries of `nearbyMap` are nearby results keyed by their own name. -/
lemma nearbyMap_entries (nearby : List NearbyBranchResult) :
    ∀ kv ∈ nearbyMap nearby, kv.2 ∈ nearby ∧ kv.2.Name = kv.1 := by
  unfold nearbyMap
  suffices h : ∀ (l : List NearbyBranchResult)
      (m : List (String × NearbyBranchResult)),
      (∀ b ∈ l, b ∈ nearby) →
      (∀ kv ∈ m, kv.2 ∈ nearby ∧ kv.2.Name = kv.1) →
      ∀ kv ∈ l.foldl (fun m b => mapSet m b.Name b) m,
        kv.2 ∈ nearby ∧ kv.2.Name = kv.1 by
    exact h nearby [] (fun b hb => hb) (by intro kv hkv; cases hkv)
  intro l
  induction l with
  | nil => intro m _ hm; exact hm
  | cons b l ih =>
    intro m hl hm
    rw [List.foldl_cons]
    apply ih _ (fun x hx => hl x (List.mem_cons_of_mem _ hx))
    intro kv hkv
    rcases mem_mapSet m b.Name b kv hkv with h1 | h2
    · exact hm kv h1
    · rw [h2]
      exact ⟨hl b (List.mem_cons_self _ _), rfl⟩

/-- A successful lookup in `nearbyMap` returns a nearby result bearing the
looked-up name. -/
lemma nearbyMap_get (nearby : List NearbyBranchResult) (name : String)
    (r : NearbyBranchResult) (h : mapGet (nearbyMap nearby) name = some r) :
    r ∈ nearby ∧ r.Name = name := by
  have hmem := mapGet_mem _ _ _ h
  have := nearbyMap_entries nearby (name, r) hmem
  exact this

/-! ## Claim C10 — degenerate path -/

/-- C10: if the decoded path has fewer than 2 points, the proximity filter
returns the empty list, whatever the threshold and the branch set. -/
theorem findNearby_degenerate (T : ℝ) (decoded : List Point)
    (branches : List BranchRow) (h : decoded.length < 2) :
    findNearbyBranchesFromPolyline T decoded branches = [] := by
  cases decoded with
  | nil => rfl
  | cons a tl =>
    cases tl with
    | nil => rfl
    | cons b tl2 =>
      simp only [List.length_cons] at h
      omega

/-- C10 witness: the degenerate-path theorem applied to the empty path. -/
theorem findNearby_degenerate_witness :
    findNearbyBranchesFromPolyline 5 [] [brB] = [] :=
  findNearby_degenerate 5 [] [brB] (by decide)

/-! ## Claim C4 — the 60 % forward-progress cutoff -/

/-- C4: a branch whose distance from the start point exceeds
`0.6 ×` the start-to-end span contributes no nearby result, for every
lateral threshold (the rejection precedes, and is independent of, the
lateral-distance scan). -/
theorem forward_progress_excludes (T : ℝ) (decoded : List Point)
    (p0 pEnd : Point) (hhead : decoded.head? = some p0)
    (hlast : decoded.getLast? = some pEnd)
    (br : BranchRow) (lat lng : ℝ)
    (hLat : br.Lat = some lat) (hLng : br.Lng = some lng)
    (hfar : getDistance p0 (⟨lat, lng⟩ : Point) > 0.6 * getDistance p0 pEnd)
    (bs1 bs2 : List BranchRow) :
    findNearbyBranchesFromPolyline T decoded (bs1 ++ br :: bs2)
      = findNearbyBranchesFromPolyline T decoded (bs1 ++ bs2) := by
  cases decoded with
  | nil => rfl
  | cons a tl =>
    cases tl with
    | nil => rfl
    | cons q qs =>
      have hp0 : a = p0 := by simpa using hhead
      rw [hp0] at hlast ⊢
      have hlastEq : (p0 :: q :: qs).getLast (by simp) = pEnd := by
        have hg := List.getLast?_eq_getLast (p0 :: q :: qs) (by simp)
        rw [hg] at hlast
        exact Option.some_inj.mp hlast
      have hnone : evalBranch T p0
          (getDistance p0 ((p0 :: q :: qs).getLast (by simp)))
          (p0 :: q :: qs) br = none := by
        unfold evalBranch
        rw [hLat, hLng]
        simp only
        rw [if_pos (by rw [hlastEq, mul_comm]; exact hfar)]
      rw [findNearby_eq_filterMap, findNearby_eq_filterMap,
        List.filterMap_append, List.filterMap_append,
        List.filterMap_cons_none hnone]

/-- C4 witness: the cutoff theorem applied to the sample path (start = end =
origin, span 0) and the branch at `(0°,180°)`. -/
theorem forward_progress_excludes_witness :
    findNearbyBranchesFromPolyline 1000 decoded0 [brFar]
      = findNearbyBranchesFromPolyline 1000 decoded0 [] :=
  forward_progress_excludes 1000 decoded0 ⟨0, 0⟩ ⟨0, 0⟩ rfl rfl brFar 0 180
    rfl rfl
    (by rw [getDistance_self, getDistance_origin_antipode, mul_zero]; positivity)
    [] []

/-! ## The eligible-EV index: characterization -/

/-- The step 4 qualification test, as a proposition. -/
lemma evCond_iff (RANGE : ℝ) (car : CarRow) :
    (car.type = "electric" && rangePasses RANGE car.range_km) = true ↔
      (car.type = "electric" ∧ ∃ r, car.range_km = some r ∧ RANGE < r) := by
  cases hr : car.range_km with
  | none => simp [rangePasses, hr]
  | some r => simp [rangePasses, hr]

lemma evStep_get (RANGE : ℝ) (m : List (String × EvInfo)) (car : CarRow)
    (k : String) :
    (mapGet (evStep RANGE m car) k).isSome = true ↔
      ((mapGet m k).isSome = true ∨
        (jsTrim car.id = k ∧ car.type = "electric" ∧
          ∃ r, car.range_km = some r ∧ RANGE < r)) := by
  unfold evStep
  by_cases hc : (car.type = "electric" && rangePasses RANGE car.range_km) = true
  · rw [if_pos hc, mapGet_mapSet]
    by_cases hk : k = jsTrim car.id
    · rw [if_pos hk]
      simp only [Option.isSome_some]
      constructor
      · intro _
        exact Or.inr ⟨hk.symm, (evCond_iff RANGE car).mp hc⟩
      · intro _
        trivial
    · rw [if_neg hk]
      constructor
      · exact fun h => Or.inl h
      · rintro (h | ⟨h1, _⟩)
        · exact h
        · exact absurd h1.symm hk
  · rw [if_neg hc]
    constructor
    · exact Or.inl
    · rintro (h | ⟨_, h2, h3⟩)
      · exact h
      · exact absurd ((evCond_iff RANGE car).mpr ⟨h2, h3⟩) hc

lemma highRange_go (RANGE : ℝ) (cars : List CarRow) :
    ∀ (m : List (String × EvInfo)) (k : String),
      (mapGet (cars.foldl (evStep RANGE) m) k).isSome = true ↔
        ((mapGet m k).isSome = true ∨
          ∃ car ∈ cars, jsTrim car.id = k ∧ car.type = "electric" ∧
            ∃ r, car.range_km = some r ∧ RANGE < r) := by
  induction cars with
  | nil =>
    intro m k
    simp
  | cons car cars ih =>
    intro m k
    rw [List.foldl_cons, ih, evStep_get]
    constructor
    · rintro ((h | h) | h)
      · exact Or.inl h
      · exact Or.inr ⟨car, List.mem_cons_self _ _, h⟩
      · obtain ⟨c, hc, hq⟩ := h
        exact Or.inr ⟨c, List.mem_cons_of_mem _ hc, hq⟩
    · rintro (h | ⟨c, hc, hq⟩)
      · exact Or.inl (Or.inl h)
      · rcases List.mem_cons.mp hc with rfl | hmem
        · exact Or.inl (Or.inr hq)
        · exact Or.inr ⟨c, hmem, hq⟩

/-- A key is in the eligible-EV index exactly when some car row carries it
(trimmed), is electric, and has a parsed range above the threshold. -/
lemma highRange_isSome_iff (RANGE : ℝ) (cars : List CarRow) (k : String) :
    (mapGet (highRangeEvMap RANGE cars) k).isSome = true ↔
      ∃ car ∈ cars, jsTrim car.id = k ∧ car.type = "electric" ∧
        ∃ r, car.range_km = some r ∧ RANGE < r := by
  unfold highRangeEvMap
  rw [highRange_go]
  simp [mapGet]

/-- Candidate membership, unfolded to the (branch, ev) pair it came from. -/
lemma mem_candidates_iff (evMap : List (String × EvInfo))
    (bwes : List BranchWithEVs) (c : Candidate) :
    c ∈ candidates evMap bwes ↔
      ∃ b ∈ bwes, ∃ ev ∈ b.electric_car_ids, ∃ info,
        mapGet evMap (jsTrim ev) = some info ∧ c = mkCandidate b ev info := by
  unfold candidates
  rw [List.mem_flatMap]
  constructor
  · rintro ⟨b, hb, hc⟩
    obtain ⟨ev, hev, hsome⟩ := List.mem_filterMap.mp hc
    cases hget : mapGet evMap (jsTrim ev) with
    | none => rw [hget] at hsome; cases hsome
    | some info =>
      rw [hget] at hsome
      simp only [Option.some_inj] at hsome
      exact ⟨b, hb, ev, hev, info, hget, hsome.symm⟩
  · rintro ⟨b, hb, ev, hev, info, hget, rfl⟩
    exact ⟨b, hb, List.mem_filterMap.mpr ⟨ev, hev, by rw [hget]⟩⟩

/-! ## Monotonicity infrastructure -/

lemma filterMap_sublist {α β : Type} (f g : α → Option β) (l : List α)
    (h : ∀ x, f x = none ∨ f x = g x) :
    (l.filterMap f).Sublist (l.filterMap g) := by
  induction l with
  | nil => simp
  | cons a l ih =>
    cases hf : f a with
    | none =>
      rw [List.filterMap_cons_none hf]
      cases hg : g a with
      | none =>
        rw [List.filterMap_cons_none hg]
        exact ih
      | some b =>
        rw [List.filterMap_cons_some hg]
        exact ih.cons b
    | some b =>
      have hg : g a = some b := by
        rcases h a with h1 | h2
        · rw [h1] at hf; cases hf
        · rw [← h2, hf]
      rw [List.filterMap_cons_some hf, List.filterMap_cons_some hg]
      exact ih.cons₂ b

/-- Raising the lateral threshold can only turn `none` into the same
`some` result for each branch. -/
lemma evalBranch_mono (T1 T2 : ℝ) (hT : T1 ≤ T2) (s : Point) (dse : ℝ)
    (decoded : List Point) (br : BranchRow) :
    evalBranch T1 s dse decoded br = none ∨
      evalBranch T1 s dse decoded br = evalBranch T2 s dse decoded br := by
  unfold evalBranch
  cases hL : br.Lat with
  | none =>
    left
    cases br.Lng <;> rfl
  | some lat =>
    cases hG : br.Lng with
    | none => left; rfl
    | some lng =>
      simp only
      by_cases hfar : getDistance s ⟨lat, lng⟩ > dse * 0.6
      · left
        rw [if_pos hfar]
      · rw [if_neg hfar, if_neg hfar]
        cases minScan ⟨lat, lng⟩ decoded with
        | none => left; rfl
        | some ml =>
          obtain ⟨m, loc⟩ := ml
          simp only
          by_cases h1 : m > T1
          · left
            rw [if_pos h1]
          · right
            rw [if_neg h1, if_neg (not_lt.mpr (le_trans (not_lt.mp h1) hT))]

/-! ## Claim C8 — threshold monotonicity -/

/-- C8: raising the lateral threshold never shrinks the nearby-result list
(the results at the smaller threshold form a sublist, hence a subset, of
those at the larger one), and raising the range threshold never grows the
eligible-EV index (every key eligible at the larger threshold is eligible
at the smaller one). -/
theorem threshold_monotonicity :
    (∀ (T1 T2 : ℝ), T1 ≤ T2 →
      ∀ (decoded : List Point) (branches : List BranchRow),
        (findNearbyBranchesFromPolyline T1 decoded branches).Sublist
          (findNearbyBranchesFromPolyline T2 decoded branches)) ∧
    (∀ (R1 R2 : ℝ), R1 ≤ R2 → ∀ (cars : List CarRow) (k : String),
        (mapGet (highRangeEvMap R2 cars) k).isSome = true →
        (mapGet (highRangeEvMap R1 cars) k).isSome = true) := by
  constructor
  · intro T1 T2 hT decoded branches
    cases decoded with
    | nil => exact List.Sublist.refl _
    | cons a tl =>
      cases tl with
      | nil => exact List.Sublist.refl _
      | cons q qs =>
        rw [findNearby_eq_filterMap, findNearby_eq_filterMap]
        exact filterMap_sublist _ _ branches
          (fun br => evalBranch_mono T1 T2 hT _ _ _ br)
  · intro R1 R2 hR cars k h
    rw [highRange_isSome_iff] at h ⊢
    obtain ⟨car, hmem, hid, htype, r, hr, hlt⟩ := h
    exact ⟨car, hmem, hid, htype, r, hr, lt_of_le_of_lt hR hlt⟩

/-- C8 witness: both monotonicity statements applied at concrete inputs
(thresholds 0 ≤ 7 on the sample path, and 100 ≤ 200 on the sample car). -/
theorem threshold_monotonicity_witness :
    (findNearbyBranchesFromPolyline 0 decoded0 [brB]).Sublist
        (findNearbyBranchesFromPolyline 7 decoded0 [brB]) ∧
    (mapGet (highRangeEvMap 100 [carE1]) "E1").isSome = true :=
  ⟨threshold_monotonicity.1 0 7 (by norm_num) decoded0 [brB],
   threshold_monotonicity.2 100 200 (by norm_num) [carE1] "E1"
     ((highRange_isSome_iff 200 [carE1] "E1").mpr
       ⟨carE1, List.mem_cons_self _ _, rfl, rfl, 500, rfl, by norm_num⟩)⟩

/-! ## Claim C7 — the eligible-EV index -/

/-- C7: the eligible-EV index contains exactly the (trimmed) ids of cars of
type `"electric"` with parsed range strictly above the threshold, and every
candidate's EV id belongs to such a car — so a car of equal range or of
another type is excluded and never appears in a candidate. -/
theorem highRange_exactly (RANGE : ℝ) (cars : List CarRow) :
    (∀ k, (mapGet (highRangeEvMap RANGE cars) k).isSome = true ↔
        ∃ car ∈ cars, jsTrim car.id = k ∧ car.type = "electric" ∧
          ∃ r, car.range_km = some r ∧ RANGE < r) ∧
    (∀ (T : ℝ) (decoded : List Point) (branches : List BranchRow)
        (c : Candidate),
        c ∈ pipelineCandidates T RANGE decoded branches cars →
        ∃ car ∈ cars, jsTrim car.id = c.ev_id ∧ car.type = "electric" ∧
          ∃ r, car.range_km = some r ∧ RANGE < r) := by
  constructor
  · exact fun k => highRange_isSome_iff RANGE cars k
  · intro T decoded branches c hc
    unfold pipelineCandidates at hc
    rw [mem_candidates_iff] at hc
    obtain ⟨b, _, ev, _, info, hget, rfl⟩ := hc
    have hsome : (mapGet (highRangeEvMap RANGE cars) (jsTrim ev)).isSome = true := by
      rw [hget]; rfl
    rw [highRange_isSome_iff] at hsome
    exact hsome

/-- C7 witness: with threshold 100, the sample fleet indexes `"E1"`
(electric, 500 km) but neither `"E2"` (electric, exactly 100 km) nor
`"G1"` (not electric). -/
theorem highRange_exactly_witness :
    (mapGet (highRangeEvMap 100 [carE1, carE2, carG]) "E1").isSome = true ∧
    ¬(mapGet (highRangeEvMap 100 [carE1, carE2, carG]) "E2").isSome = true ∧
    ¬(mapGet (highRangeEvMap 100 [carE1, carE2, carG]) "G1").isSome = true := by
  refine ⟨?_, ?_, ?_⟩
  · exact ((highRange_exactly 100 [carE1, carE2, carG]).1 "E1").mpr
      ⟨carE1, by simp, rfl, rfl, 500, rfl, by norm_num⟩
  · intro h
    obtain ⟨car, hmem, hid, htype, r, hr, hlt⟩ :=
      ((highRange_exactly 100 [carE1, carE2, carG]).1 "E2").mp h
    simp only [List.mem_cons, List.not_mem_nil, or_false] at hmem
    rcases hmem with rfl | rfl | rfl
    · exact absurd hid (by decide)
    · have : r = 100 := by
        have h100 := hr
        simp only [carE2, Option.some_inj] at h100
        exact h100.symm
      rw [this] at hlt
      exact absurd hlt (by norm_num)
    · exact absurd hid (by decide)
  · intro h
    obtain ⟨car, hmem, hid, htype, r, hr, hlt⟩ :=
      ((highRange_exactly 100 [carE1, carE2, carG]).1 "G1").mp h
    simp only [List.mem_cons, List.not_mem_nil, or_false] at hmem
    rcases hmem with rfl | rfl | rfl
    · exact absurd hid (by decide)
    · exact absurd hid (by decide)
    · exact absurd htype (by decide)

/-! ## The booked-date index -/

lemma bookedStep_none (m : List (String × List LDate)) (t : TripRow)
    (h : tripDate t = none) : bookedStep m t = m := by
  unfold bookedStep
  rw [h]

lemma bookedStep_some (m : List (String × List LDate)) (t : TripRow)
    (d : LDate) (h : tripDate t = some d) :
    bookedStep m t
      = mapSet m (jsTrim t.car_id)
          ((mapGet m (jsTrim t.car_id)).getD [] ++ [d]) := by
  unfold bookedStep
  rw [h]

lemma bookedStep_mono (m : List (String × List LDate)) (t : TripRow)
    (k : String) (d : LDate) (hd : d ∈ (mapGet m k).getD []) :
    d ∈ (mapGet (bookedStep m t) k).getD [] := by
  cases htd : tripDate t with
  | none =>
    rw [bookedStep_none m t htd]
    exact hd
  | some d2 =>
    rw [bookedStep_some m t d2 htd, mapGet_mapSet]
    by_cases hk : k = jsTrim t.car_id
    · rw [if_pos hk]
      simp only [Option.getD_some]
      exact List.mem_append_left _ (by rw [← hk]; exact hd)
    · rw [if_neg hk]
      exact hd

lemma foldl_booked_preserve (l : List TripRow) :
    ∀ (m : List (String × List LDate)) (k : String) (d : LDate),
      d ∈ (mapGet m k).getD [] →
      d ∈ (mapGet (l.foldl bookedStep m) k).getD [] := by
  induction l with
  | nil => intro m k d h; exact h
  | cons t l ih =>
    intro m k d h
    rw [List.foldl_cons]
    exact ih _ k d (bookedStep_mono m t k d h)

/-- A trip whose extracted date is `d` puts `d` into the booked list of its
trimmed car id. -/
lemma bookedMap_mem (trips : List TripRow) (t : TripRow) (ht : t ∈ trips)
    (d : LDate) (hd : tripDate t = some d) :
    d ∈ (mapGet (bookedMap trips) (jsTrim t.car_id)).getD [] := by
  unfold bookedMap
  obtain ⟨l1, l2, rfl⟩ := List.append_of_mem ht
  rw [List.foldl_append, List.foldl_cons]
  apply foldl_booked_preserve
  rw [bookedStep_some _ t d hd, mapGet_mapSet, if_pos rfl]
  simp

/-- Membership in the availability filter, unfolded. -/
lemma mem_freeCandidates (desired : LDate) (bm : List (String × List LDate))
    (cands : List Candidate) (c : Candidate) :
    c ∈ freeCandidates desired bm cands ↔
      c ∈ cands ∧ ¬(desired ∈ (mapGet bm c.ev_id).getD []) := by
  unfold freeCandidates
  rw [List.mem_filter]
  simp

/-! ## Claim C6 — one date per trip, silent skipping -/

/-- C6: each trip contributes exactly one calendar date to the booked index,
taken from its departure cell when that is present, else from its arrival
cell; a trip whose chosen timestamp is missing or unparseable contributes
nothing (the fold total-functionally skips it), and a contributing trip
appends exactly its one date to its car's list, leaving other keys alone. -/
theorem trip_contribution (t : TripRow) (pre : List TripRow) :
    ((jsTrim t.car_id ≠ "") → ∀ d tod,
      t.departure_time = TimeCell.parsed d tod → tripDate t = some d) ∧
    ((jsTrim t.car_id ≠ "") → t.departure_time = TimeCell.missing →
      ∀ d tod, t.arrival_time = TimeCell.parsed d tod → tripDate t = some d) ∧
    (t.departure_time = TimeCell.missing →
      t.arrival_time = TimeCell.missing → tripDate t = none) ∧
    (t.departure_time = TimeCell.unparseable → tripDate t = none) ∧
    (t.departure_time = TimeCell.missing →
      t.arrival_time = TimeCell.unparseable → tripDate t = none) ∧
    (tripDate t = none → bookedMap (pre ++ [t]) = bookedMap pre) ∧
    (∀ d, tripDate t = some d →
      mapGet (bookedMap (pre ++ [t])) (jsTrim t.car_id)
        = some ((mapGet (bookedMap pre) (jsTrim t.car_id)).getD [] ++ [d]) ∧
      ∀ k, k ≠ jsTrim t.car_id →
        mapGet (bookedMap (pre ++ [t])) k = mapGet (bookedMap pre) k) := by
  refine ⟨?_, ?_, ?_, ?_, ?_, ?_, ?_⟩
  · intro hne d tod hdep
    have hct : chosenTime t = TimeCell.parsed d tod := by
      unfold chosenTime
      rw [hdep]
    unfold tripDate
    rw [if_neg hne, hct]
    rfl
  · intro hne hdep d tod harr
    have hct : chosenTime t = TimeCell.parsed d tod := by
      unfold chosenTime
      rw [hdep, harr]
    unfold tripDate
    rw [if_neg hne, hct]
    rfl
  · intro hdep harr
    have hct : chosenTime t = TimeCell.missing := by
      unfold chosenTime
      rw [hdep, harr]
    unfold tripDate
    by_cases hid : jsTrim t.car_id = ""
    · rw [if_pos hid]
    · rw [if_neg hid, hct]
  · intro hdep
    have hct : chosenTime t = TimeCell.unparseable := by
      unfold chosenTime
      rw [hdep]
    unfold tripDate
    by_cases hid : jsTrim t.car_id = ""
    · rw [if_pos hid]
    · rw [if_neg hid, hct]
  · intro hdep harr
    have hct : chosenTime t = TimeCell.unparseable := by
      unfold chosenTime
      rw [hdep, harr]
    unfold tripDate
    by_cases hid : jsTrim t.car_id = ""
    · rw [if_pos hid]
    · rw [if_neg hid, hct]
  · intro hnone
    unfold bookedMap
    rw [List.foldl_append, List.foldl_cons, List.foldl_nil,
      bookedStep_none _ t hnone]
  · intro d hd
    constructor
    · unfold bookedMap
      rw [List.foldl_append, List.foldl_cons, List.foldl_nil,
        bookedStep_some _ t d hd, mapGet_mapSet, if_pos rfl]
    · intro k hk
      unfold bookedMap
      rw [List.foldl_append, List.foldl_cons, List.foldl_nil,
        bookedStep_some _ t d hd, mapGet_mapSet, if_neg hk]

/-- C6 witness: the sample booking (departure parsed, arrival absent)
contributes exactly its date under key `"E1"`. -/
theorem trip_contribution_witness :
    tripDate tripBooked = some date0 ∧
    mapGet (bookedMap [tripBooked]) "E1" = some [date0] := by
  have h := trip_contribution tripBooked []
  have hdate : tripDate tripBooked = some date0 :=
    h.1 (by decide) date0 480 rfl
  refine ⟨hdate, ?_⟩
  have h2 := (h.2.2.2.2.2.2 date0 hdate).1
  simpa [bookedMap, mapGet] using h2

/-! ## Symbolic evaluation of the sample pipeline -/

lemma minScan_sample : minScan ⟨0, 0⟩ decoded0 = some (0, ⟨0, 0⟩) := by
  unfold minScan decoded0
  rw [List.foldl_cons, List.foldl_cons, List.foldl_nil]
  rw [show minScanStep ⟨0, 0⟩ none ⟨0, 0⟩
      = some (getDistance ⟨0, 0⟩ ⟨0, 0⟩, ⟨0, 0⟩) from rfl]
  rw [getDistance_self]
  rw [show minScanStep ⟨0, 0⟩ (some (0, ⟨0, 0⟩)) ⟨0, 0⟩
      = if getDistance ⟨0, 0⟩ ⟨0, 0⟩ < 0 then
          some (getDistance ⟨0, 0⟩ ⟨0, 0⟩, ⟨0, 0⟩)
        else some (0, ⟨0, 0⟩) from rfl]
  rw [getDistance_self, if_neg (lt_irrefl 0)]

lemma evalBranch_sample :
    evalBranch 1000 ⟨0, 0⟩ (getDistance ⟨0, 0⟩ ⟨0, 0⟩) decoded0 brB
      = some ⟨"B", 0, ⟨0, 0⟩⟩ := by
  rw [show evalBranch 1000 ⟨0, 0⟩ (getDistance ⟨0, 0⟩ ⟨0, 0⟩) decoded0 brB
      = (if getDistance ⟨0, 0⟩ (⟨0, 0⟩ : Point)
            > getDistance ⟨0, 0⟩ (⟨0, 0⟩ : Point) * 0.6 then none
         else
           match minScan ⟨0, 0⟩ decoded0 with
           | none => none
           | some (minDist, minLoc) =>
             if minDist > 1000 then none
             else some ⟨brB.Name, minDist, minLoc⟩) from rfl]
  rw [getDistance_self, if_neg (by norm_num), minScan_sample]
  rw [show (match some ((0 : ℝ), (⟨0, 0⟩ : Point)) with
      | none => (none : Option NearbyBranchResult)
      | some (minDist, minLoc) =>
        if minDist > 1000 then none
        else some ⟨brB.Name, minDist, minLoc⟩)
      = if (0 : ℝ) > 1000 then none
        else some ⟨brB.Name, 0, ⟨0, 0⟩⟩ from rfl]
  rw [if_neg (by norm_num)]
  rfl

lemma sample_nearby :
    findNearbyBranchesFromPolyline 1000 decoded0 [brB] = [⟨"B", 0, ⟨0, 0⟩⟩] := by
  have h : findNearbyBranchesFromPolyline 1000 decoded0 [brB]
      = List.filterMap
          (evalBranch 1000 ⟨0, 0⟩ (getDistance ⟨0, 0⟩ ⟨0, 0⟩) decoded0)
          [brB] := rfl
  rw [h, List.filterMap_cons_some evalBranch_sample, List.filterMap_nil]

lemma sample_evmap :
    highRangeEvMap 100 [carE1] = [("E1", infoE1)] := by
  unfold highRangeEvMap
  rw [List.foldl_cons, List.foldl_nil]
  unfold evStep
  rw [if_pos ((evCond_iff 100 carE1).mpr ⟨rfl, 500, rfl, by norm_num⟩)]
  rfl

lemma sample_candidates :
    pipelineCandidates 1000 100 decoded0 [brB] [carE1]
      = [⟨"B", 0, 0, 0, ⟨0, 0⟩, "E1", []⟩] := by
  unfold pipelineCandidates
  rw [sample_nearby, sample_evmap]
  rfl

/-! ## Claim C5 — booking exclusion -/

/-- C5: a candidate whose EV has a trip on the target calendar date (the
comparison keeps only the `YYYY-MM-DD` part, discarding the time of day) is
dropped from the free-candidate list; when every candidate carries that EV,
the whole selection returns `null` ("none found"). -/
theorem booked_ev_excluded (T RANGE : ℝ) (TIME : LDate × Nat)
    (decoded : List Point) (branches : List BranchRow) (cars : List CarRow)
    (trips : List TripRow) (c : Candidate) (t : TripRow) (ht : t ∈ trips)
    (hid : jsTrim t.car_id = c.ev_id)
    (hdate : tripDate t = some (toLocalDate TIME.1 TIME.2)) :
    c ∉ pipelineFree T RANGE TIME decoded branches cars trips ∧
    ((∀ c2 ∈ pipelineCandidates T RANGE decoded branches cars,
        c2.ev_id = c.ev_id) →
      getBestBranchWithAvailableEV T RANGE TIME decoded branches cars trips
        = none) := by
  have hbooked : toLocalDate TIME.1 TIME.2 ∈
      (mapGet (bookedMap trips) c.ev_id).getD [] := by
    rw [← hid]
    exact bookedMap_mem trips t ht _ hdate
  constructor
  · intro hc
    unfold pipelineFree at hc
    rw [mem_freeCandidates] at hc
    exact hc.2 hbooked
  · intro hall
    have hfree : pipelineFree T RANGE TIME decoded branches cars trips = [] := by
      rw [List.eq_nil_iff_forall_not_mem]
      intro c2 hc2
      unfold pipelineFree at hc2
      rw [mem_freeCandidates] at hc2
      exact hc2.2 (by rw [hall c2 hc2.1]; exact hbooked)
    unfold getBestBranchWithAvailableEV
    rw [hfree]
    rfl

/-- C5 witness: with the sample scenario (one branch, one EV `"E1"`, a
booking of `"E1"` departing on the target date at 08:00) the candidate is
excluded and the selection returns `null`. -/
theorem booked_ev_excluded_witness :
    candZero ∉ pipelineFree 1000 100 (date0, 0) decoded0 [brB] [carE1]
        [tripBooked] ∧
    getBestBranchWithAvailableEV 1000 100 (date0, 0) decoded0 [brB] [carE1]
        [tripBooked] = none := by
  have h := booked_ev_excluded 1000 100 (date0, 0) decoded0 [brB] [carE1]
    [tripBooked] candZero tripBooked (List.mem_cons_self _ _) rfl rfl
  refine ⟨h.1, h.2 ?_⟩
  intro c2 hc2
  rw [sample_candidates] at hc2
  simp only [List.mem_cons, List.not_mem_nil, or_false] at hc2
  rw [hc2]
  rfl

/-! ## Claim C9 — the candidate cross-product -/

lemma length_filterMap_eq_filter {α β : Type} (f : α → Option β)
    (p : α → Bool) (hp : ∀ x, (f x).isSome = p x) (l : List α) :
    (l.filterMap f).length = (l.filter p).length := by
  induction l with
  | nil => rfl
  | cons a l ih =>
    cases hf : f a with
    | none =>
      have hpa : ¬p a = true := by
        rw [← hp a, hf]
        simp
      rw [List.filterMap_cons_none hf, List.filter_cons_of_neg hpa]
      exact ih
    | some b =>
      have hpa : p a = true := by
        rw [← hp a, hf]
        rfl
      rw [List.filterMap_cons_some hf, List.filter_cons_of_pos hpa,
        List.length_cons, List.length_cons, ih]

/-- C9: candidate building is the cross-product join — the candidate list
has one entry per (branch, eligible EV) pair (its length is the sum over the
filtered branches of their eligible-EV counts, so a branch with two eligible
EVs contributes exactly two candidates and one with zero contributes none),
a candidate exists exactly for such a pair, and every branch that survives
to the join stage is in the nearby map. -/
theorem candidates_cross_product (evMap : List (String × EvInfo))
    (bwes : List BranchWithEVs) :
    ((candidates evMap bwes).length
      = (bwes.map (fun b =>
          (b.electric_car_ids.filter
            (fun ev => (mapGet evMap (jsTrim ev)).isSome)).length)).sum) ∧
    (∀ c, c ∈ candidates evMap bwes ↔
      ∃ b ∈ bwes, ∃ ev ∈ b.electric_car_ids, ∃ info,
        mapGet evMap (jsTrim ev) = some info ∧ c = mkCandidate b ev info) ∧
    (∀ (nm : List (String × NearbyBranchResult)) (branches : List BranchRow)
        (b : BranchWithEVs), b ∈ branchesWithEVs nm branches →
        (mapGet nm b.branch).isSome = true) := by
  refine ⟨?_, ?_, ?_⟩
  · unfold candidates
    rw [List.length_flatMap]
    congr 1
    apply List.map_congr_left
    intro b _
    exact length_filterMap_eq_filter _ _
      (fun ev => by cases mapGet evMap (jsTrim ev) <;> rfl) _
  · exact fun c => mem_candidates_iff evMap bwes c
  · intro nm branches b hb
    unfold branchesWithEVs at hb
    obtain ⟨br, hbr, rfl⟩ := List.mem_map.mp hb
    have h2 := (List.mem_filter.mp hbr).2
    simp only [Bool.and_eq_true] at h2
    exact h2.1

/-- C9 witness: a branch owning the two eligible EVs `"E1"` and `"E3"`
yields exactly two candidates, and the sample join-stage branch is in the
nearby map. -/
theorem candidates_cross_product_witness :
    (candidates evMapTwo [bwTwo]).length = 2 ∧
    (mapGet (nearbyMap [rB]) (bwB.branch)).isSome = true := by
  constructor
  · rw [(candidates_cross_product evMapTwo [bwTwo]).1]
    rfl
  · refine (candidates_cross_product evMapTwo [bwTwo]).2.2
      (nearbyMap [rB]) [brB] bwB ?_
    rw [show branchesWithEVs (nearbyMap [rB]) [brB] = [bwB] from rfl]
    exact List.mem_cons_self _ _

/-! ## Ordering the scores: claim C1 -/

lemma jsLt_iff_toE (a b : JsNum) (ha : a ≠ JsNum.nan) (hb : b ≠ JsNum.nan) :
    jsLt a b ↔ toE a < toE b := by
  cases a <;> cases b <;>
    first
      | exact absurd rfl ha
      | exact absurd rfl hb
      | simp [jsLt, toE, EReal.bot_lt_coe, EReal.coe_lt_top,
          EReal.coe_lt_coe_iff, bot_lt_top]

lemma jsLt_irrefl (a : JsNum) (ha : a ≠ JsNum.nan) : ¬jsLt a a := by
  rw [jsLt_iff_toE _ _ ha ha]
  exact lt_irrefl _

lemma jsLt_asymm (a b : JsNum) (ha : a ≠ JsNum.nan) (hb : b ≠ JsNum.nan)
    (h : jsLt a b) : ¬jsLt b a := by
  rw [jsLt_iff_toE _ _ ha hb] at h
  rw [jsLt_iff_toE _ _ hb ha]
  exact not_lt.mpr (le_of_lt h)

lemma jsLt_le_trans (a b c : JsNum) (ha : a ≠ JsNum.nan) (hb : b ≠ JsNum.nan)
    (hc : c ≠ JsNum.nan) (h1 : ¬jsLt b a) (h2 : jsLt b c) : jsLt a c := by
  rw [jsLt_iff_toE _ _ hb ha, not_lt] at h1
  rw [jsLt_iff_toE _ _ hb hc] at h2
  rw [jsLt_iff_toE _ _ ha hc]
  exact lt_of_le_of_lt h1 h2

lemma jsLt_lt_le (a b c : JsNum) (ha : a ≠ JsNum.nan) (hb : b ≠ JsNum.nan)
    (hc : c ≠ JsNum.nan) (h1 : jsLt a b) (h2 : ¬jsLt c b) : jsLt a c := by
  rw [jsLt_iff_toE _ _ ha hb] at h1
  rw [jsLt_iff_toE _ _ hc hb, not_lt] at h2
  rw [jsLt_iff_toE _ _ ha hc]
  exact lt_of_lt_of_le h1 h2

/-- The `reduce` fold returns the first element of minimum score, when every
score is comparable (non-`NaN`): the list splits around the result, every
element before it has a strictly larger score, and nothing beats it. -/
lemma foldl_pick_spec (rest : List BestBranchResult) :
    ∀ (acc : BestBranchResult),
      acc.distanceRatio ≠ JsNum.nan →
      (∀ x ∈ rest, x.distanceRatio ≠ JsNum.nan) →
      ∃ l1 l2, acc :: rest = l1 ++ (rest.foldl pickStep acc) :: l2
        ∧ (∀ y ∈ l1,
            jsLt (rest.foldl pickStep acc).distanceRatio y.distanceRatio)
        ∧ (∀ y ∈ acc :: rest,
            ¬jsLt y.distanceRatio (rest.foldl pickStep acc).distanceRatio) := by
  induction rest with
  | nil =>
    intro acc ha _
    refine ⟨[], [], rfl, by simp, ?_⟩
    intro y hy
    simp only [List.mem_cons, List.not_mem_nil, or_false] at hy
    rw [hy]
    exact jsLt_irrefl _ ha
  | cons x xs ih =>
    intro acc ha hrest
    have hxnan : x.distanceRatio ≠ JsNum.nan := hrest x (List.mem_cons_self _ _)
    have hxs : ∀ y ∈ xs, y.distanceRatio ≠ JsNum.nan :=
      fun y hy => hrest y (List.mem_cons_of_mem _ hy)
    rw [List.foldl_cons]
    by_cases hx : jsLt x.distanceRatio acc.distanceRatio
    · have hstep : pickStep acc x = x := by
        unfold pickStep
        rw [if_pos hx]
      rw [hstep]
      obtain ⟨l1, l2, heq, hl1, hmin⟩ := ih x hxnan hxs
      have hwmem : xs.foldl pickStep x ∈ x :: xs := by
        rw [heq]
        exact List.mem_append_right l1 (List.mem_cons_self _ _)
      have hwnan : (xs.foldl pickStep x).distanceRatio ≠ JsNum.nan :=
        fun hn => by
          rcases List.mem_cons.mp hwmem with he | he
          · exact hxnan (he ▸ hn)
          · exact hxs _ he (hn)
      refine ⟨acc :: l1, l2, ?_, ?_, ?_⟩
      · rw [List.cons_append, ← heq]
      · intro y hy
        rcases List.mem_cons.mp hy with rfl | hy2
        · exact jsLt_le_trans _ _ _ hwnan hxnan ha
            (hmin x (List.mem_cons_self _ _)) hx
        · exact hl1 y hy2
      · intro y hy
        rcases List.mem_cons.mp hy with rfl | hy2
        · exact jsLt_asymm _ _ hwnan ha
            (jsLt_le_trans _ _ _ hwnan hxnan ha
              (hmin x (List.mem_cons_self _ _)) hx)
        · exact hmin y hy2
    · have hstep : pickStep acc x = acc := by
        unfold pickStep
        rw [if_neg hx]
      rw [hstep]
      obtain ⟨l1, l2, heq, hl1, hmin⟩ := ih acc ha hxs
      have hwmem : xs.foldl pickStep acc ∈ acc :: xs := by
        rw [heq]
        exact List.mem_append_right l1 (List.mem_cons_self _ _)
      have hwnan : (xs.foldl pickStep acc).distanceRatio ≠ JsNum.nan :=
        fun hn => by
          rcases List.mem_cons.mp hwmem with he | he
          · exact ha (he ▸ hn)
          · exact hxs _ he hn
      cases l1 with
      | nil =>
        rw [List.nil_append] at heq
        obtain ⟨hw, hl2⟩ := List.cons_eq_cons.mp heq
        refine ⟨[], x :: xs, ?_, by simp, ?_⟩
        · rw [List.nil_append, ← hw]
        · intro y hy
          rcases List.mem_cons.mp hy with rfl | hy2
          · rw [← hw]
            exact jsLt_irrefl _ ha
          · rcases List.mem_cons.mp hy2 with rfl | hy3
            · rw [← hw]
              exact hx
            · exact hmin y (List.mem_cons_of_mem _ hy3)
      | cons z l1t =>
        rw [List.cons_append] at heq
        obtain ⟨hzacc, hxs2⟩ := List.cons_eq_cons.mp heq
        have hwacc : jsLt (xs.foldl pickStep acc).distanceRatio
            acc.distanceRatio := by
          have h := hl1 z (List.mem_cons_self _ _)
          rw [← hzacc] at h
          exact h
        have hwx : jsLt (xs.foldl pickStep acc).distanceRatio
            x.distanceRatio :=
          jsLt_lt_le _ _ _ hwnan ha hxnan hwacc hx
        refine ⟨acc :: x :: l1t, l2, ?_, ?_, ?_⟩
        · rw [List.cons_append, List.cons_append, ← hxs2]
        · intro y hy
          rcases List.mem_cons.mp hy with rfl | hy2
          · exact hwacc
          · rcases List.mem_cons.mp hy2 with rfl | hy3
            · exact hwx
            · exact hl1 y (List.mem_cons_of_mem _ hy3)
        · intro y hy
          rcases List.mem_cons.mp hy with hy1 | hy2
          · rw [hy1]
            exact hmin acc (List.mem_cons_self _ _)
          · rcases List.mem_cons.mp hy2 with rfl | hy3
            · exact jsLt_asymm _ _ hwnan hxnan hwx
            · exact hmin y (List.mem_cons_of_mem _ hy3)

/-- C1: when every score in the scored list is comparable (no `NaN`),
`selectBest` returns `none` exactly on the empty list, and otherwise returns
a member that no element strictly beats (a minimum-score candidate), with
every element placed before it scoring strictly higher — so ties go to the
first-encountered candidate. Determinism over a fixed list is definitional:
`selectBest` is a pure function of its argument. -/
theorem selectBest_min_first (l : List BestBranchResult)
    (hl : ∀ c ∈ l, c.distanceRatio ≠ JsNum.nan) :
    (selectBest l = none ↔ l = []) ∧
    (∀ w, selectBest l = some w →
      ∃ l1 l2, l = l1 ++ w :: l2
        ∧ (∀ c ∈ l, ¬jsLt c.distanceRatio w.distanceRatio)
        ∧ (∀ y ∈ l1, jsLt w.distanceRatio y.distanceRatio)) := by
  constructor
  · cases l with
    | nil => simp [selectBest]
    | cons c rest => simp [selectBest]
  · intro w hw
    cases l with
    | nil => cases hw
    | cons c rest =>
      have hw2 : rest.foldl pickStep c = w := by
        unfold selectBest at hw
        exact Option.some_inj.mp hw
      obtain ⟨l1, l2, heq, hl1, hmin⟩ := foldl_pick_spec rest c
        (hl c (List.mem_cons_self _ _))
        (fun y hy => hl y (List.mem_cons_of_mem _ hy))
      rw [hw2] at heq hl1 hmin
      exact ⟨l1, l2, heq, hmin, hl1⟩

/-- C1 witness: on the two-element sample list (scores `2` then `1`) the
selection is not `none`, the empty list gives `none`, and the returned
winner is the score-1 candidate. -/
theorem selectBest_min_first_witness :
    selectBest [sRatio2, sRatio1] ≠ none ∧
    selectBest ([] : List BestBranchResult) = none ∧
    selectBest [sRatio2, sRatio1] = some sRatio1 := by
  have hnan : ∀ c ∈ [sRatio2, sRatio1], c.distanceRatio ≠ JsNum.nan := by
    intro c hc
    rcases List.mem_cons.mp hc with rfl | hc2
    · simp [sRatio2]
    · rcases List.mem_cons.mp hc2 with rfl | hc3
      · simp [sRatio1]
      · cases hc3
  refine ⟨?_, ?_, ?_⟩
  · intro h0
    exact List.cons_ne_nil _ _
      ((selectBest_min_first [sRatio2, sRatio1] hnan).1.mp h0)
  · exact (selectBest_min_first [] (by simp)).1.mpr rfl
  · show some (List.foldl pickStep sRatio2 [sRatio1]) = some sRatio1
    rw [List.foldl_cons, List.foldl_nil]
    unfold pickStep
    rw [if_pos (show jsLt sRatio1.distanceRatio sRatio2.distanceRatio from
      by show (1 : ℝ) < 2; norm_num)]

/-! ## Claim C2 — the recomputed distance, the ratio, and the winner -/

lemma jsDiv_self_ne (d : ℝ) (hd : d ≠ 0) : jsDiv d d = JsNum.real 1 := by
  unfold jsDiv
  rw [if_neg hd, div_self hd]

lemma jsDiv_zero_zero : jsDiv 0 0 = JsNum.nan := by
  unfold jsDiv
  rw [if_pos rfl, if_pos rfl]

/-- Pipeline invariant: for unique branch names, the coordinates a candidate
carries are those of the very branch row whose scan produced its
`minDistanceLocation`, so the recomputed distance equals the recorded one. -/
lemma pipeline_candidate_dist (T RANGE : ℝ) (decoded : List Point)
    (branches : List BranchRow) (cars : List CarRow)
    (hnodup : (branches.map BranchRow.Name).Nodup)
    (c : Candidate)
    (hc : c ∈ pipelineCandidates T RANGE decoded branches cars) :
    getDistance ⟨c.lat, c.lng⟩ c.minDistanceLocation
      = c.distanceToRoute_meters := by
  unfold pipelineCandidates at hc
  rw [mem_candidates_iff] at hc
  obtain ⟨b, hb, ev, hev, info, hget, rfl⟩ := hc
  unfold branchesWithEVs at hb
  obtain ⟨br, hbr, rfl⟩ := List.mem_map.mp hb
  have hfil := List.mem_filter.mp hbr
  have hcond := hfil.2
  simp only [Bool.and_eq_true] at hcond
  obtain ⟨r, hr⟩ := Option.isSome_iff_exists.mp hcond.1
  have hnr := nearbyMap_get _ _ _ hr
  obtain ⟨br2, hbr2, lat, lng, hlat2, hlng2, hname2, hdist⟩ :=
    findNearby_mem T decoded branches r hnr.1
  have hbeq : br2 = br :=
    List.inj_on_of_nodup_map hnodup hbr2 hfil.1
      (by rw [← hname2]; exact hnr.2)
  rw [hbeq] at hlat2 hlng2
  simp only [mkCandidate, hr, hlat2, hlng2, Option.getD_some]
  exact hdist

lemma pipeline_free_dist (T RANGE : ℝ) (TIME : LDate × Nat)
    (decoded : List Point) (branches : List BranchRow) (cars : List CarRow)
    (trips : List TripRow) (hnodup : (branches.map BranchRow.Name).Nodup)
    (c : Candidate)
    (hc : c ∈ pipelineFree T RANGE TIME decoded branches cars trips) :
    getDistance ⟨c.lat, c.lng⟩ c.minDistanceLocation
      = c.distanceToRoute_meters := by
  unfold pipelineFree at hc
  rw [mem_freeCandidates] at hc
  exact pipeline_candidate_dist T RANGE decoded branches cars hnodup c hc.1

lemma scoreOne_ratio_cases (c : Candidate)
    (hdist : getDistance ⟨c.lat, c.lng⟩ c.minDistanceLocation
      = c.distanceToRoute_meters) :
    (scoreOne c).distanceRatio = JsNum.nan ∨
      (scoreOne c).distanceRatio = JsNum.real 1 := by
  have hratio : (scoreOne c).distanceRatio
      = jsDiv c.distanceToRoute_meters c.distanceToRoute_meters := by
    simp only [scoreOne]
    rw [hdist]
  by_cases hd : c.distanceToRoute_meters = 0
  · left
    rw [hratio, hd]
    exact jsDiv_zero_zero
  · right
    rw [hratio]
    exact jsDiv_self_ne _ hd

/-- When every score is `NaN` or `real 1`, the fold never leaves its
starting element. -/
lemma foldl_pick_keep (rest : List BestBranchResult) :
    ∀ acc : BestBranchResult,
      (acc.distanceRatio = JsNum.nan ∨ acc.distanceRatio = JsNum.real 1) →
      (∀ y ∈ rest,
        y.distanceRatio = JsNum.nan ∨ y.distanceRatio = JsNum.real 1) →
      rest.foldl pickStep acc = acc := by
  induction rest with
  | nil => intro acc _ _; rfl
  | cons x xs ih =>
    intro acc hacc hall
    rw [List.foldl_cons]
    have hstep : pickStep acc x = acc := by
      unfold pickStep
      rw [if_neg ?_]
      rcases hall x (List.mem_cons_self _ _) with h1 | h1 <;>
        rcases hacc with h2 | h2 <;>
          rw [h1, h2] <;> simp [jsLt]
    rw [hstep]
    exact ih acc hacc (fun y hy => hall y (List.mem_cons_of_mem _ hy))

/-- C2: with unique branch names, every free candidate's recomputed
`distanceToMinLocation_meters` equals its recorded `distanceToRoute_meters`
(by the symmetry of the haversine distance and because the recorded
`minDistanceLocation` is exactly the path point that attained the recorded
minimum), so every `distanceRatio` is `1` whenever that distance is
non-zero; consequently the final `reduce` always returns the scored first
element of the free-candidate list. -/
theorem ratio_one_first_wins (T RANGE : ℝ) (TIME : LDate × Nat)
    (decoded : List Point) (branches : List BranchRow) (cars : List CarRow)
    (trips : List TripRow)
    (hnodup : (branches.map BranchRow.Name).Nodup) :
    (∀ c ∈ pipelineFree T RANGE TIME decoded branches cars trips,
      (scoreOne c).distanceToMinLocation_meters = c.distanceToRoute_meters ∧
      (c.distanceToRoute_meters ≠ 0 →
        (scoreOne c).distanceRatio = JsNum.real 1)) ∧
    (∀ (c0 : Candidate) (rest : List Candidate),
      pipelineFree T RANGE TIME decoded branches cars trips = c0 :: rest →
      getBestBranchWithAvailableEV T RANGE TIME decoded branches cars trips
        = some (scoreOne c0)) := by
  constructor
  · intro c hc
    have hdist := pipeline_free_dist T RANGE TIME decoded branches cars trips
      hnodup c hc
    constructor
    · simp only [scoreOne]
      exact hdist
    · intro hd0
      have hratio : (scoreOne c).distanceRatio
          = jsDiv c.distanceToRoute_meters c.distanceToRoute_meters := by
        simp only [scoreOne]
        rw [hdist]
      rw [hratio]
      exact jsDiv_self_ne _ hd0
  · intro c0 rest hsplit
    unfold getBestBranchWithAvailableEV
    rw [hsplit]
    rw [show scoreCandidates (c0 :: rest)
        = scoreOne c0 :: scoreCandidates rest from rfl]
    show some (List.foldl pickStep (scoreOne c0) (scoreCandidates rest))
      = some (scoreOne c0)
    rw [foldl_pick_keep (scoreCandidates rest) (scoreOne c0) ?hacc ?hrest]
    case hacc =>
      apply scoreOne_ratio_cases
      apply pipeline_free_dist T RANGE TIME decoded branches cars trips hnodup
      rw [hsplit]
      exact List.mem_cons_self _ _
    case hrest =>
      intro y hy
      obtain ⟨c2, hc2, rfl⟩ := List.mem_map.mp hy
      apply scoreOne_ratio_cases
      apply pipeline_free_dist T RANGE TIME decoded branches cars trips hnodup
      rw [hsplit]
      exact List.mem_cons_of_mem _ hc2

lemma sample_free :
    pipelineFree 1000 100 (date0, 0) decoded0 [brB] [carE1] []
      = [⟨"B", 0, 0, 0, ⟨0, 0⟩, "E1", []⟩] := by
  unfold pipelineFree
  rw [sample_candidates]
  rfl

/-- C2 witness: on the sample scenario (one branch at the origin, one free
EV) the selection returns exactly the scored first free candidate. -/
theorem ratio_one_first_wins_witness :
    getBestBranchWithAvailableEV 1000 100 (date0, 0) decoded0 [brB] [carE1] []
      = some (scoreOne ⟨"B", 0, 0, 0, ⟨0, 0⟩, "E1", []⟩) :=
  (ratio_one_first_wins 1000 100 (date0, 0) decoded0 [brB] [carE1] []
      (by simp)).2
    ⟨"B", 0, 0, 0, ⟨0, 0⟩, "E1", []⟩ [] sample_free

/-! ## Claim C3 — the zero-distance score is `NaN`, not `Infinity` -/

lemma foldl_pick_nan (rest : List BestBranchResult) :
    ∀ acc : BestBranchResult, acc.distanceRatio = JsNum.nan →
      rest.foldl pickStep acc = acc := by
  induction rest with
  | nil => intro acc _; rfl
  | cons x xs ih =>
    intro acc ha
    rw [List.foldl_cons]
    have hstep : pickStep acc x = acc := by
      unfold pickStep
      rw [if_neg (by rw [ha]; simp [jsLt])]
    rw [hstep]
    exact ih acc ha

lemma foldl_pick_not_nan (rest : List BestBranchResult) :
    ∀ acc : BestBranchResult, acc.distanceRatio ≠ JsNum.nan →
      (rest.foldl pickStep acc).distanceRatio ≠ JsNum.nan := by
  induction rest with
  | nil => intro acc ha; exact ha
  | cons x xs ih =>
    intro acc ha
    rw [List.foldl_cons]
    apply ih
    unfold pickStep
    by_cases hx : jsLt x.distanceRatio acc.distanceRatio
    · rw [if_pos hx]
      intro hxn
      rw [hxn] at hx
      simp [jsLt] at hx
    · rw [if_neg hx]
      exact ha

lemma scoreOne_candZero_ratio : (scoreOne candZero).distanceRatio = JsNum.nan := by
  show jsDiv candZero.distanceToRoute_meters
    (getDistance ⟨candZero.lat, candZero.lng⟩ candZero.minDistanceLocation)
    = JsNum.nan
  rw [show (⟨candZero.lat, candZero.lng⟩ : Point) = (⟨0, 0⟩ : Point) from rfl,
    show candZero.minDistanceLocation = (⟨0, 0⟩ : Point) from rfl,
    getDistance_self]
  exact jsDiv_zero_zero

lemma scoreOne_candFinite_ratio :
    (scoreOne candFinite).distanceRatio = JsNum.real 1 := by
  show jsDiv candFinite.distanceToRoute_meters
    (getDistance ⟨candFinite.lat, candFinite.lng⟩
      candFinite.minDistanceLocation) = JsNum.real 1
  rw [show (⟨candFinite.lat, candFinite.lng⟩ : Point) = (⟨0, 0⟩ : Point)
      from rfl,
    show candFinite.minDistanceLocation = (⟨0, 180⟩ : Point) from rfl,
    getDistance_origin_antipode,
    show candFinite.distanceToRoute_meters = 6371000 * π from rfl]
  exact jsDiv_self_ne _ (by positivity)

/-- C3 counterexample: for the candidate that coincides with its nearest
path point (recorded minimum `0`), the recomputed distance is `0` and the
score is `NaN` — not `Infinity` — and that candidate, listed first, wins
the selection against a finite-score (`1`) competitor, contradicting both
"score becomes infinite" and "never wins against a finite-score
candidate". -/
theorem zero_distance_cex :
    (scoreOne candZero).distanceToMinLocation_meters = 0 ∧
    (scoreOne candZero).distanceRatio = JsNum.nan ∧
    (scoreOne candZero).distanceRatio ≠ JsNum.inf ∧
    (scoreOne candFinite).distanceRatio = JsNum.real 1 ∧
    selectBest (scoreCandidates [candZero, candFinite])
      = some (scoreOne candZero) := by
  refine ⟨?_, scoreOne_candZero_ratio, ?_, scoreOne_candFinite_ratio, ?_⟩
  · show getDistance ⟨candZero.lat, candZero.lng⟩ candZero.minDistanceLocation
      = 0
    rw [show (⟨candZero.lat, candZero.lng⟩ : Point) = (⟨0, 0⟩ : Point)
        from rfl,
      show candZero.minDistanceLocation = (⟨0, 0⟩ : Point) from rfl]
    exact getDistance_self _
  · rw [scoreOne_candZero_ratio]
    simp
  · show some (List.foldl pickStep (scoreOne candZero) [scoreOne candFinite])
      = some (scoreOne candZero)
    rw [List.foldl_cons, List.foldl_nil]
    unfold pickStep
    rw [if_neg (by
      rw [scoreOne_candZero_ratio, scoreOne_candFinite_ratio]
      simp [jsLt])]

/-- C3 (amended): when a candidate's branch coincides with its nearest path
point, its recorded minimum distance is `0` as well and its score is `NaN`
(`0/0`), not `Infinity`; under the strict-less `reduce`, a `NaN`-scored
candidate wins whenever it is the first element of the scored list — in
particular when it is the only candidate — and is never returned from any
later position; this is a valid outcome of `selectBest`, not an error. -/
theorem zero_distance_nan_first (c : Candidate)
    (h0 : getDistance ⟨c.lat, c.lng⟩ c.minDistanceLocation = 0)
    (hr : c.distanceToRoute_meters = 0) :
    (scoreOne c).distanceRatio = JsNum.nan ∧
    (scoreOne c).distanceRatio ≠ JsNum.inf ∧
    (∀ rest : List BestBranchResult,
      selectBest (scoreOne c :: rest) = some (scoreOne c)) ∧
    (∀ (l : List BestBranchResult) (w : BestBranchResult),
      selectBest l = some w → w.distanceRatio = JsNum.nan →
      ∃ rest, l = w :: rest) := by
  have hnan : (scoreOne c).distanceRatio = JsNum.nan := by
    show jsDiv c.distanceToRoute_meters
      (getDistance ⟨c.lat, c.lng⟩ c.minDistanceLocation) = JsNum.nan
    rw [h0, hr]
    exact jsDiv_zero_zero
  refine ⟨hnan, by rw [hnan]; simp, ?_, ?_⟩
  · intro rest
    show some (List.foldl pickStep (scoreOne c) rest) = some (scoreOne c)
    rw [foldl_pick_nan rest (scoreOne c) hnan]
  · intro l w hsel hwnan
    cases l with
    | nil => cases hsel
    | cons c0 rest =>
      have hw : rest.foldl pickStep c0 = w := by
        unfold selectBest at hsel
        exact Option.some_inj.mp hsel
      by_cases h00 : c0.distanceRatio = JsNum.nan
      · rw [foldl_pick_nan rest c0 h00] at hw
        exact ⟨rest, by rw [← hw]⟩
      · exact absurd (hw ▸ foldl_pick_not_nan rest c0 h00) (fun hne => hne hwnan)

/-- C3 witness (amended claim): the zero-distance sample candidate scores
`NaN` and, placed first, wins the selection. -/
theorem zero_distance_nan_first_witness :
    (scoreOne candZero).distanceRatio = JsNum.nan ∧
    selectBest [scoreOne candZero, scoreOne candFinite]
      = some (scoreOne candZero) := by
  have h := zero_distance_nan_first candZero (by
    rw [show (⟨candZero.lat, candZero.lng⟩ : Point) = (⟨0, 0⟩ : Point)
        from rfl,
      show candZero.minDistanceLocation = (⟨0, 0⟩ : Point) from rfl]
    exact getDistance_self _) rfl
  exact ⟨h.1, h.2.2.1 [scoreOne candFinite]⟩

end EvRouting
